import Mathlib

/-!
# Verification of the Dependency-Track client scripts

A shallow embedding in Lean 4 of the identity-resolution, authentication and
credential-issuance logic of the Dependency-Track client scripts
(`dt_user_login.py`, `dt_fetch_teams_for_user.py`, `dt_generate_api_key.py`,
`Dependency-Track_generate_api_key.py`, `jwtBasedAuthentication.py`).

Modelling conventions:
* Python strings are `List Char`; raw HTTP / decoded byte strings are
  `List Nat` (one `Nat` per byte).
* Python exceptions are `Except` / `Option` results; a `try/except` block is
  a `match` on the inner result.
* The outcome of an outbound HTTP call is a parameter of the embedded
  function (a value, or a function from the request data to a value), so the
  same definition covers every possible remote behaviour.
* Side effects that the claims quantify over (which usernames were sent to
  the raw login endpoint, whether the identity list was fetched, which team
  uuid a key-rotation request was issued for) are returned explicitly as an
  extra trace component.
* Library calls (`str.lower`, `str.strip`, `str.split`,
  `base64.urlsafe_b64decode`, `json.loads`, `json.dumps`) are modelled by
  executable Lean functions that follow the CPython semantics on the inputs
  the scripts produce; the models are ASCII-level (Python's Unicode-aware
  case folding, `\uXXXX` escapes and UTF-8 multi-byte sequences are outside
  the model, and `bytes.decode("utf-8")` is folded into the byte-level JSON
  reader).
-/

/-! ## Python string helpers -/

/-- `str.lower` restricted to ASCII case folding. -/
def lowerL (s : List Char) : List Char := s.map Char.toLower

/-- Characters removed by Python's default `str.strip`. -/
def isPySpace (c : Char) : Bool :=
  c = ' ' || c = '\t' || c = '\n' || c = '\x0d' || c = '\x0b' || c = '\x0c'

/-- `str.strip()`: drop leading and trailing whitespace. -/
def stripL (s : List Char) : List Char :=
  ((s.dropWhile isPySpace).reverse.dropWhile isPySpace).reverse

/-- `token.split('.')`: split on every dot, keeping empty segments. -/
def splitDot : List Char → List (List Char)
  | [] => [[]]
  | c :: rest =>
    if c = '.' then [] :: splitDot rest
    else
      match splitDot rest with
      | [] => [[c]]
      | s :: ss => (c :: s) :: ss

/-! ## base64url (`base64.urlsafe_b64decode` / unpadded url-safe encoding)

The decoder mirrors CPython's non-strict `binascii.a2b_base64`: characters
outside the alphabet are skipped, `=` before two data characters of a quad
is skipped, a quad position of 2 or 3 plus enough accumulated padding ends
the decode successfully, and a dangling quad at end of input is an error
(which `decode_jwt_payload` turns into `none`).  The url-safe variant simply
accepts `-`/`_` alongside `+`/`/`. -/

/-- Value of one base64 character (url-safe and standard alphabets). -/
def b64Index (c : Char) : Option Nat :=
  if 'A' ≤ c ∧ c ≤ 'Z' then some (c.toNat - 65)
  else if 'a' ≤ c ∧ c ≤ 'z' then some (c.toNat - 97 + 26)
  else if '0' ≤ c ∧ c ≤ '9' then some (c.toNat - 48 + 52)
  else if c = '+' ∨ c = '-' then some 62
  else if c = '/' ∨ c = '_' then some 63
  else none

/-- Character for a 6-bit value in the url-safe alphabet. -/
def b64Char (v : Nat) : Char :=
  if v < 26 then Char.ofNat (65 + v)
  else if v < 52 then Char.ofNat (97 + (v - 26))
  else if v < 62 then Char.ofNat (48 + (v - 52))
  else if v = 62 then '-'
  else '_'

/-- One pass of CPython's non-strict base64 decoding loop.
`qp` is the position inside the current quad (0–3), `left` the pending
bits of the current quad, `pads` the run of `=` seen at quad position ≥ 2,
`acc` the bytes emitted so far. -/
def b64DecLoop : List Char → Nat → Nat → Nat → List Nat → Option (List Nat)
  | [], qp, _, _, acc => if qp = 0 then some acc else none
  | c :: rest, qp, left, pads, acc =>
    if c = '=' then
      if 2 ≤ qp then
        if 4 ≤ qp + pads + 1 then some acc
        else b64DecLoop rest qp left (pads + 1) acc
      else b64DecLoop rest qp left pads acc
    else
      match b64Index c with
      | none => b64DecLoop rest qp left pads acc
      | some v =>
        if qp = 0 then b64DecLoop rest 1 v 0 acc
        else if qp = 1 then b64DecLoop rest 2 (v % 16) 0 (acc ++ [left * 4 + v / 16])
        else if qp = 2 then b64DecLoop rest 3 (v % 4) 0 (acc ++ [left * 16 + v / 4])
        else b64DecLoop rest 0 0 0 (acc ++ [left * 64 + v])

/-- `base64.urlsafe_b64decode` on a character string; `none` models the
`binascii.Error` raised on a dangling quad. -/
def urlsafe_b64decode (s : List Char) : Option (List Nat) :=
  b64DecLoop s 0 0 0 []

/-- Unpadded url-safe base64 encoding of a byte string (the form the JWT
payload segment takes on the wire). -/
def b64UrlEncodeNoPad : List Nat → List Char
  | b1 :: b2 :: b3 :: rest =>
    b64Char (b1 / 4) :: b64Char (b1 % 4 * 16 + b2 / 16) ::
      b64Char (b2 % 16 * 4 + b3 / 64) :: b64Char (b3 % 64) :: b64UrlEncodeNoPad rest
  | [b1, b2] => [b64Char (b1 / 4), b64Char (b1 % 4 * 16 + b2 / 16), b64Char (b2 % 16 * 4)]
  | [b1] => [b64Char (b1 / 4), b64Char (b1 % 4 * 16)]
  | [] => []

/-! ## JSON (model of `json.loads` / `json.dumps` on the payload subset)

The scripts only ever exchange flat JSON objects whose values are strings or
non-negative integers (JWT payloads, `{"key": ...}` rotation responses), or
bare scalars.  The model therefore parses, over raw bytes: a flat object, a
string, or a non-negative integer, with whitespace skipping and the
single-character string escapes; nesting, arrays, floats, booleans, `null`
and `\uXXXX` escapes are outside the model, and `bytes.decode("utf-8")` is
folded into this byte-level reader. -/

/-- A JSON value of the payload subset: a (byte) string or a number. -/
inductive JVal where
  | jstr (s : List Nat)
  | jnum (n : Nat)
deriving DecidableEq, Repr

/-- A parsed JSON document: a flat object, or a bare scalar value. -/
inductive JTop where
  | jobj (members : List (List Nat × JVal))
  | jval (v : JVal)
deriving DecidableEq, Repr

/-- ASCII digit byte. -/
def isDigitB (b : Nat) : Bool := 48 ≤ b && b ≤ 57

/-- JSON whitespace byte (space, tab, newline, carriage return). -/
def isWsB (b : Nat) : Bool := b = 32 || b = 9 || b = 10 || b = 13

/-- Skip JSON whitespace. -/
def skipWs : List Nat → List Nat
  | [] => []
  | b :: r => if isWsB b then skipWs r else b :: r

/-- Single-character string escapes accepted after a backslash. -/
def unesc (b : Nat) : Option Nat :=
  if b = 34 then some 34
  else if b = 92 then some 92
  else if b = 47 then some 47
  else if b = 98 then some 8
  else if b = 102 then some 12
  else if b = 110 then some 10
  else if b = 114 then some 13
  else if b = 116 then some 9
  else none

/-- Parse string content after the opening quote; returns the content and
the bytes after the closing quote. -/
def parseStr : List Nat → Option (List Nat × List Nat)
  | [] => none
  | b :: r =>
    if b = 34 then some ([], r)
    else if b = 92 then
      match r with
      | [] => none
      | e :: r2 =>
        match unesc e with
        | none => none
        | some x =>
          match parseStr r2 with
          | none => none
          | some (s, rr) => some (x :: s, rr)
    else
      match parseStr r with
      | none => none
      | some (s, rr) => some (b :: s, rr)

/-- Greedily consume decimal digits, extending the accumulator. -/
def numGo : List Nat → Nat → Nat × List Nat
  | [], acc => (acc, [])
  | b :: r, acc => if isDigitB b then numGo r (acc * 10 + (b - 48)) else (acc, b :: r)

/-- Parse a non-negative integer (at least one digit). -/
def parseNum : List Nat → Option (Nat × List Nat)
  | [] => none
  | b :: r => if isDigitB b then some (numGo r (b - 48)) else none

/-- Parse a scalar value: a quoted string or a number. -/
def parseVal (l : List Nat) : Option (JVal × List Nat) :=
  match l with
  | [] => none
  | b :: r =>
    if b = 34 then
      match parseStr r with
      | none => none
      | some (s, rr) => some (.jstr s, rr)
    else if isDigitB b then
      match parseNum (b :: r) with
      | none => none
      | some (n, rr) => some (.jnum n, rr)
    else none

/-- Parse one `"key": value` member. -/
def parsePair (l : List Nat) : Option ((List Nat × JVal) × List Nat) :=
  match skipWs l with
  | [] => none
  | b :: r =>
    if b = 34 then
      match parseStr r with
      | none => none
      | some (k, r1) =>
        match skipWs r1 with
        | [] => none
        | c :: r2 =>
          if c = 58 then
            match parseVal (skipWs r2) with
            | none => none
            | some (v, r3) => some ((k, v), r3)
          else none
    else none

theorem skipWs_length (l : List Nat) : (skipWs l).length ≤ l.length := by
  induction l with
  | nil => exact Nat.le.refl
  | cons b r ih =>
    show (if isWsB b then skipWs r else b :: r).length ≤ r.length + 1
    split
    · exact Nat.le_trans ih (Nat.le_succ _)
    · exact Nat.le.refl

theorem parseStr_length {l : List Nat} :
    ∀ {s r : List Nat}, parseStr l = some (s, r) → r.length < l.length := by
  induction l using parseStr.induct with
  | case1 => intro s r h; rw [parseStr.eq_def] at h; simp at h
  | case2 r2 =>
    intro s r h
    rw [parseStr.eq_def] at h
    simp at h
    simp [h.2]
  | case3 hne =>
    intro s r h
    rw [parseStr.eq_def] at h
    simp at h
  | case4 e r2 hu hne =>
    intro s r h
    rw [parseStr.eq_def] at h
    simp [hu] at h
  | case5 e r2 x hu hp hne ih =>
    intro s r h
    rw [parseStr.eq_def] at h
    simp [hu, hp] at h
  | case6 e r2 x hu s0 rr hp hne ih =>
    intro s r h
    rw [parseStr.eq_def] at h
    simp [hu, hp] at h
    obtain ⟨h1, h2⟩ := h
    subst h2
    have := ih hp
    simp only [List.length_cons]
    omega
  | case7 e r2 h34 h92 hp ih =>
    intro s r h
    rw [parseStr.eq_def] at h
    simp [h34, h92, hp] at h
  | case8 e r2 h34 h92 s0 rr hp ih =>
    intro s r h
    rw [parseStr.eq_def] at h
    simp [h34, h92, hp] at h
    obtain ⟨h1, h2⟩ := h
    subst h2
    have := ih hp
    simp only [List.length_cons]
    omega

theorem numGo_length {l : List Nat} :
    ∀ {acc : Nat}, ((numGo l acc).2).length ≤ l.length := by
  induction l with
  | nil => intro acc; exact Nat.le.refl
  | cons b r ih =>
    intro acc
    show ((if isDigitB b then numGo r (acc * 10 + (b - 48)) else (acc, b :: r)).2).length ≤
      r.length + 1
    split
    · exact Nat.le_trans ih (Nat.le_succ _)
    · exact Nat.le.refl

theorem parseNum_length {l : List Nat} {n : Nat} {r : List Nat}
    (h : parseNum l = some (n, r)) : r.length < l.length := by
  cases l with
  | nil => exact Option.noConfusion h
  | cons b t =>
    have h' : (if isDigitB b then some (numGo t (b - 48)) else none) = some (n, r) := h
    split at h'
    · have h2 := Option.some.inj h'
      have h3 : ((numGo t (b - 48)).2).length ≤ t.length := numGo_length
      rw [h2] at h3
      simp only [List.length_cons] at h3 ⊢
      omega
    · exact Option.noConfusion h'

theorem parseVal_length {l : List Nat} {v : JVal} {r : List Nat}
    (h : parseVal l = some (v, r)) : r.length < l.length := by
  cases l with
  | nil => exact Option.noConfusion h
  | cons b t =>
    have h' : (if b = 34 then
        match parseStr t with
        | none => none
        | some (s, rr) => some (JVal.jstr s, rr)
      else if isDigitB b then
        match parseNum (b :: t) with
        | none => none
        | some (n, rr) => some (JVal.jnum n, rr)
      else none) = some (v, r) := h
    split at h'
    · revert h'
      cases hp : parseStr t with
      | none => intro h'; exact Option.noConfusion h'
      | some p =>
        obtain ⟨s, rr⟩ := p
        intro h'
        have h2 := Option.some.inj h'
        have h3 : rr = r := congrArg Prod.snd h2
        subst h3
        have h4 := parseStr_length hp
        simp only [List.length_cons]
        omega
    · split at h'
      · revert h'
        cases hp : parseNum (b :: t) with
        | none => intro h'; exact Option.noConfusion h'
        | some p =>
          obtain ⟨n, rr⟩ := p
          intro h'
          have h2 := Option.some.inj h'
          have h3 : rr = r := congrArg Prod.snd h2
          subst h3
          exact parseNum_length hp
      · exact Option.noConfusion h'

theorem parsePair_length {l : List Nat} {kv : List Nat × JVal} {r : List Nat}
    (h : parsePair l = some (kv, r)) : r.length < l.length := by
  unfold parsePair at h
  revert h
  cases hw : skipWs l with
  | nil => intro h; exact Option.noConfusion h
  | cons b t =>
    intro h
    have hbt : t.length + 1 ≤ l.length := by
      have := skipWs_length l
      rw [hw] at this
      simpa using this
    replace h : (if b = 34 then
        match parseStr t with
        | none => none
        | some (k, r1) =>
          match skipWs r1 with
          | [] => none
          | c :: r2 =>
            if c = 58 then
              match parseVal (skipWs r2) with
              | none => none
              | some (v, r3) => some ((k, v), r3)
            else none
      else none) = some (kv, r) := h
    split at h
    · revert h
      cases hp : parseStr t with
      | none => intro h; exact Option.noConfusion h
      | some p =>
        obtain ⟨k, r1⟩ := p
        intro h
        have hr1 := parseStr_length hp
        replace h : (match skipWs r1 with
          | [] => none
          | c :: r2 =>
            if c = 58 then
              match parseVal (skipWs r2) with
              | none => none
              | some (v, r3) => some ((k, v), r3)
            else none) = some (kv, r) := h
        revert h
        cases hw2 : skipWs r1 with
        | nil => intro h; exact Option.noConfusion h
        | cons c r2 =>
          intro h
          have hcr2 : r2.length + 1 ≤ r1.length := by
            have := skipWs_length r1
            rw [hw2] at this
            simpa using this
          replace h : (if c = 58 then
              match parseVal (skipWs r2) with
              | none => none
              | some (v, r3) => some ((k, v), r3)
            else none) = some (kv, r) := h
          split at h
          · revert h
            cases hv : parseVal (skipWs r2) with
            | none => intro h; exact Option.noConfusion h
            | some p2 =>
              obtain ⟨v, r3⟩ := p2
              intro h
              have h2 := Option.some.inj h
              have h3 : r3 = r := congrArg Prod.snd h2
              subst h3
              have h4 := parseVal_length hv
              have h5 : (skipWs r2).length ≤ r2.length := skipWs_length r2
              omega
          · exact Option.noConfusion h
    · exact Option.noConfusion h

/-- Parse the members of a non-empty object: `"k": v` pairs separated by
`,`, terminated by `}`. -/
def parseMembers (l : List Nat) : Option (List (List Nat × JVal) × List Nat) :=
  match hp : parsePair l with
  | none => none
  | some (kv, r) =>
    match hs : skipWs r with
    | [] => none
    | c :: r2 =>
      if c = 44 then
        match parseMembers r2 with
        | none => none
        | some (ms, rr) => some (kv :: ms, rr)
      else if c = 125 then some ([kv], r2)
      else none
termination_by l.length
decreasing_by
  have h1 := parsePair_length hp
  have h2 := skipWs_length r
  rw [hs] at h2
  simp only [List.length_cons] at h2
  omega

/-- Parse an object body after the opening `{`. -/
def parseObjBody (l : List Nat) : Option (List (List Nat × JVal) × List Nat) :=
  match skipWs l with
  | [] => none
  | b :: r => if b = 125 then some ([], r) else parseMembers l

/-- Model of `json.loads(bytes.decode("utf-8"))` on the payload subset:
a flat object, a quoted string, or a non-negative integer, with nothing but
whitespace allowed after it (`json.loads` raises on extra data). -/
def jsonParseBytes (l : List Nat) : Option JTop :=
  match skipWs l with
  | [] => none
  | b :: r =>
    if b = 123 then
      match parseObjBody r with
      | none => none
      | some (ms, rest) => if skipWs rest = [] then some (.jobj ms) else none
    else if b = 34 then
      match parseStr r with
      | none => none
      | some (s, rest) => if skipWs rest = [] then some (.jval (.jstr s)) else none
    else if isDigitB b then
      match parseNum (b :: r) with
      | none => none
      | some (n, rest) => if skipWs rest = [] then some (.jval (.jnum n)) else none
    else none

/-! ### JSON serialisation (the `encode_for_test` side of the round trip) -/

/-- Escape one byte of string content the way `json.dumps` does for the
quote and backslash characters. -/
def escByte (b : Nat) : List Nat := if b = 34 ∨ b = 92 then [92, b] else [b]

/-- Escape a whole string content. -/
def escAll : List Nat → List Nat
  | [] => []
  | b :: r => escByte b ++ escAll r

/-- Serialise a JSON string with its quotes. -/
def serStr (s : List Nat) : List Nat := 34 :: escAll s ++ [34]

/-- Decimal digits (ASCII) of a natural number, most significant first. -/
def natDigits (n : Nat) : List Nat :=
  if n < 10 then [48 + n]
  else natDigits (n / 10) ++ [48 + n % 10]
termination_by n
decreasing_by exact Nat.div_lt_self (by omega) (by omega)

/-- Serialise a scalar value. -/
def serVal : JVal → List Nat
  | .jstr s => serStr s
  | .jnum n => natDigits n

/-- Serialise one `"k": v` member. -/
def serPair (kv : List Nat × JVal) : List Nat := serStr kv.1 ++ 58 :: serVal kv.2

/-- Serialise the comma-separated members of an object. -/
def serMembers : List (List Nat × JVal) → List Nat
  | [] => []
  | [kv] => serPair kv
  | kv :: rest => serPair kv ++ 44 :: serMembers rest

/-- Compact serialisation of a flat JSON object. -/
def serObj (m : List (List Nat × JVal)) : List Nat := 123 :: serMembers m ++ [125]

/-! ## Domain model: the Dependency-Track client scripts

Records mirror the raw JSON dictionaries returned by the remote service
(`dict.get` on a possibly-missing field is an `Option` field), errors mirror
the exception classes, and every outbound HTTP call is a parameter. -/

/-- A failure of an outbound request as surfaced by `_make_request` /
`_make_admin_request`: `requests` transport errors and `raise_for_status`
HTTP errors are both wrapped into `DependencyTrackAPIError`. -/
inductive DTErr where
  | transportFailed
  | httpStatus (status : Nat)
deriving DecidableEq, Repr

/-- A raw managed-user JSON object as returned by `GET /v1/user/managed`;
`dict.get(field)` yields `none` when the field is missing. -/
structure UserRec where
  username : Option (List Char)
  email : Option (List Char)
  fullname : Option (List Char)
  lastLogin : Option (List Char)
  created : Option (List Char)
  suspended : Option Bool
  forcePasswordChange : Option Bool
  nonExpiryPassword : Option Bool
deriving DecidableEq, Repr

/-- The `User` dataclass of `dt_user_login.py`. -/
structure User where
  username : List Char
  email : List Char
  fullname : List Char
  lastLogin : Option (List Char)
  created : Option (List Char)
  suspended : Bool
  forcePasswordChange : Bool
  nonExpiryPassword : Bool
deriving DecidableEq, Repr

/-- Construction of a `User` from a raw JSON object, with the `dict.get`
defaults used at both return sites of `get_user_by_username_or_email`. -/
def mkUserFromRec (u : UserRec) : User :=
  { username := u.username.getD []
    email := u.email.getD []
    fullname := u.fullname.getD []
    lastLogin := u.lastLogin
    created := u.created
    suspended := u.suspended.getD false
    forcePasswordChange := u.forcePasswordChange.getD false
    nonExpiryPassword := u.nonExpiryPassword.getD false }

/-- The scan loop of `DependencyTrackClient.get_user_by_username_or_email`
(`dt_user_login.py`): one pass over the user list; within each record the
username comparison comes before the email comparison. -/
def guScan (idLower : List Char) : List UserRec → Option User
  | [] => none
  | u :: rest =>
    if lowerL (u.username.getD []) = idLower then some (mkUserFromRec u)
    else if lowerL (u.email.getD []) = idLower then some (mkUserFromRec u)
    else guScan idLower rest

/-- `DependencyTrackClient.get_user_by_username_or_email(identifier)`
applied to an already-fetched user list (`get_all_users` propagates its own
failures; this claim concerns the scan). -/
def get_user_by_username_or_email (users : List UserRec) (identifier : List Char) :
    Option User :=
  guScan (stripL (lowerL identifier)) users

/-- The scan loop of `get_username_from_email`: `user_data.get('email')` on
a record without an email is `None`, and `.lower()` on it raises
(`.error ()`), which the enclosing `except` turns into `None`. -/
def ueScanE (emailLower : List Char) : List UserRec → Except Unit (Option (List Char))
  | [] => .ok none
  | u :: rest =>
    match u.email with
    | none => .error ()
    | some e =>
      if lowerL e = emailLower then .ok u.username
      else ueScanE emailLower rest

/-- `DependencyTrackClient.get_username_from_email(email)`: fetches the
user list with the admin key and scans it; the surrounding
`except Exception` catches both the fetch failure (`DependencyTrackAPIError`)
and the in-scan `AttributeError`, returning `None` for either. -/
def get_username_from_email (fetch : Except DTErr (List UserRec)) (email : List Char) :
    Option (List Char) :=
  match fetch with
  | .error _ => none
  | .ok users =>
    match ueScanE (stripL (lowerL email)) users with
    | .error _ => none
    | .ok r => r

/-- The outcome of one `POST /api/v1/user/login` request. -/
inductive HttpResult where
  | transportFail
  | resp (status : Nat) (body : List Char)
deriving DecidableEq, Repr

/-- The distinct `DependencyTrackAPIError` raises inside `_authenticate`. -/
inductive RawAuthErr where
  | badToken
  | badStatus (status : Nat)
  | requestFail
deriving DecidableEq, Repr

/-- The `eyJ` signature prefix a JWT body must start with. -/
def eyJ : List Char := ['e', 'y', 'J']

/-- `DependencyTrackClient._authenticate(username, password)` given the
response of the login endpoint.  Returns the client's `jwt_token` field
after the call together with the raised error, if any; the assignment
`self.jwt_token = token` happens only in the 200-and-`eyJ` branch, so on
every failure the stored token is unchanged. -/
def rawAuthenticate (jwtToken : Option (List Char)) (r : HttpResult) :
    Option (List Char) × Option RawAuthErr :=
  match r with
  | .transportFail => (jwtToken, some .requestFail)
  | .resp status body =>
    if status = 200 then
      if eyJ.isPrefixOf (stripL body) then (some (stripL body), none)
      else (jwtToken, some .badToken)
    else (jwtToken, some (.badStatus status))

/-- The distinct `DependencyTrackAPIError` raises of
`authenticate_with_identifier`:  no identity with the given e-mail, a
resolved username whose authentication still failed, and the catch-all
"authentication failed for identifier". -/
inductive AuthErr where
  | identityNotFound
  | resolvedButRejected
  | authFailed
deriving DecidableEq, Repr

/-- Observable outbound activity of one `authenticate_with_identifier`
call: the usernames sent to the raw login endpoint, in order, and how many
times the managed-user list was requested. -/
structure AuthTrace where
  rawLogins : List (List Char)
  dirFetches : Nat
deriving DecidableEq, Repr

/-- `DependencyTrackClient.authenticate_with_identifier(identifier,
password)`.  `loginEp` gives the login endpoint's response for each
username/password pair, `dirFetch` the result of the admin-key user-list
request.  Returns (result, jwt_token after the call, trace). -/
def authenticate_with_identifier (loginEp : List Char → List Char → HttpResult)
    (dirFetch : Except DTErr (List UserRec)) (jwt0 : Option (List Char))
    (identifier pw : List Char) :
    Except AuthErr (List Char) × Option (List Char) × AuthTrace :=
  let a1 := rawAuthenticate jwt0 (loginEp identifier pw)
  match a1.2 with
  | none => (.ok identifier, a1.1, ⟨[identifier], 0⟩)
  | some _ =>
    if identifier.contains '@' then
      match get_username_from_email dirFetch identifier with
      | some u =>
        if u ≠ [] then
          let a2 := rawAuthenticate a1.1 (loginEp u pw)
          match a2.2 with
          | none => (.ok u, a2.1, ⟨[identifier, u], 1⟩)
          | some _ => (.error .resolvedButRejected, a2.1, ⟨[identifier, u], 1⟩)
        else (.error .identityNotFound, a1.1, ⟨[identifier], 1⟩)
      | none => (.error .identityNotFound, a1.1, ⟨[identifier], 1⟩)
    else (.error .authFailed, a1.1, ⟨[identifier], 0⟩)

/-- A raw team JSON object from `GET /v1/team`; `dict.get('name', '')`
makes the name optional, the uuid is read with `team['uuid']` and is
modelled as present. -/
structure TeamRec where
  uuid : List Char
  name : Option (List Char)
deriving DecidableEq, Repr

/-- The name comparison of `find_team_by_name`:
`team.get('name', '').lower() == team_name.lower()` (no strip). -/
def teamNameMatches (teamName : List Char) (t : TeamRec) : Bool :=
  lowerL (t.name.getD []) = lowerL teamName

/-- The scan loop of `find_team_by_name`: first match in list order. -/
def ftScan (teamName : List Char) : List TeamRec → Option TeamRec
  | [] => none
  | t :: rest => if teamNameMatches teamName t then some t else ftScan teamName rest

/-- `DependencyTrackClient.find_team_by_name(team_name)`
(`dt_generate_api_key.py`): `get_teams()` failures are not caught and
propagate; on success the team list is scanned for the first
case-insensitive name match. -/
def find_team_by_name (fetch : Except DTErr (List TeamRec)) (teamName : List Char) :
    Except DTErr (Option TeamRec) :=
  match fetch with
  | .error e => .error e
  | .ok teams => .ok (ftScan teamName teams)

/-- Errors escaping `generate_api_key`: the wrapped request error or the
explicit "No API key returned in response" raise (both
`DependencyTrackAPIError`), and the uncaught Python exceptions from
`response.json()` on an unparseable body (`ValueError`) or `.get` on a
non-dict parse result (`AttributeError`). -/
inductive KeyGenErr where
  | apiErr (e : DTErr)
  | issuanceErr
  | jsonDecodeFail
  | attrFail
deriving DecidableEq, Repr

/-- Byte string of an ASCII character string. -/
def charBytes (s : List Char) : List Nat := s.map Char.toNat

/-- The bytes of the JSON key `"key"`. -/
def keyBytes : List Nat := charBytes "key".toList

/-- Last-occurrence lookup in a member list: `json.loads` builds a `dict`
in which a repeated key keeps its last value, and `.get` reads that. -/
def dictGet (ms : List (List Nat × JVal)) (k : List Nat) : Option JVal :=
  match ms with
  | [] => none
  | (k1, v) :: rest =>
    match dictGet rest k with
    | some r => some r
    | none => if k1 = k then some v else none

/-- The fabricated fallback of `dt_generate_api_key.py`:
`f"DT-Token-{team_uuid}-{datetime.now().timestamp()}"`, with the clock
reading passed in as `now`. -/
def dtTokenPlaceholder (teamUuid now : List Char) : JVal :=
  .jstr (charBytes ("DT-Token-".toList ++ teamUuid ++ '-' :: now))

/-- `DependencyTrackClient.generate_api_key(team_uuid)`
(`dt_generate_api_key.py`): issue `PUT /v1/team/{uuid}/key` and read the
`key` field of the JSON body, falling back to the fabricated
`DT-Token-...` value when the field is absent; only an *empty* body raises
"No API key returned in response". -/
def generate_api_key (teamUuid now : List Char) (rotateResp : Except DTErr (List Nat)) :
    Except KeyGenErr JVal :=
  match rotateResp with
  | .error e => .error (.apiErr e)
  | .ok body =>
    if body = [] then .error .issuanceErr
    else
      match jsonParseBytes body with
      | none => .error .jsonDecodeFail
      | some (.jval _) => .error .attrFail
      | some (.jobj ms) =>
        match dictGet ms keyBytes with
        | some v => .ok v
        | none => .ok (dtTokenPlaceholder teamUuid now)

/-- `input(...).strip().lower() in ['yes', 'y']`. -/
def confirmAccepted (inp : List Char) : Bool :=
  lowerL (stripL inp) = "yes".toList || lowerL (stripL inp) = "y".toList

/-- `generate_api_key_for_team(client, team_name, auto_confirm)`
(`dt_generate_api_key.py`).  Returns the function result (`Bool`, or a
propagated uncaught exception) together with the uuid a rotate request was
issued against, `none` when no rotate request was made.  The `try` block
catches only `DependencyTrackAPIError` (printing an error JSON and
returning `False`); other exceptions propagate. -/
def generate_api_key_for_team (teamsFetch : Except DTErr (List TeamRec))
    (teamName : List Char) (autoConfirm : Bool) (confirmInput : List Char)
    (rotateResp : List Char → Except DTErr (List Nat)) (now : List Char) :
    Except KeyGenErr Bool × Option (List Char) :=
  match find_team_by_name teamsFetch teamName with
  | .error e => (.error (.apiErr e), none)
  | .ok none => (.ok false, none)
  | .ok (some t) =>
    if autoConfirm = false ∧ confirmAccepted confirmInput = false then (.ok false, none)
    else
      match generate_api_key t.uuid now (rotateResp t.uuid) with
      | .ok _ => (.ok true, some t.uuid)
      | .error (.apiErr _) => (.ok false, some t.uuid)
      | .error .issuanceErr => (.ok false, some t.uuid)
      | .error .jsonDecodeFail => (.error .jsonDecodeFail, some t.uuid)
      | .error .attrFail => (.error .attrFail, some t.uuid)

/-- `decode_jwt_payload(token)` (`dt_user_login.py` /
`jwtBasedAuthentication.py`): split on `.` into exactly three segments,
pad the second with `'=' * (4 - len(payload) % 4)`, base64url-decode it and
parse the bytes as JSON; every raised exception is caught and turned into
`None`. -/
def decode_jwt_payload (token : List Char) : Option JTop :=
  match splitDot token with
  | [_, payload, _] =>
    match urlsafe_b64decode (payload ++ List.replicate (4 - payload.length % 4) '=') with
    | none => none
    | some bytes => jsonParseBytes bytes
  | _ => none

/-! ## Claim C1: identity resolution priority -/

/-- An identity record whose only match for "bob" is its email, placed
first in the list. -/
def earlierEmailRec : UserRec :=
  ⟨some ['x'], some ['b', 'o', 'b'], none, none, none, none, none, none⟩

/-- An identity record whose username is "bob", placed second. -/
def laterUsernameRec : UserRec :=
  ⟨some ['b', 'o', 'b'], some ['y'], none, none, none, none, none, none⟩

/-- C1 counterexample: with an email-matching record before a
username-matching record, `get_user_by_username_or_email("bob")` returns
the earlier record (username `"x"`), even though an identity whose
username equals the normalized identifier exists in the list. -/
theorem get_user_email_match_shadows_later_username :
    (get_user_by_username_or_email [earlierEmailRec, laterUsernameRec] ['b', 'o', 'b']).map
        User.username = some ['x']
      ∧ lowerL (laterUsernameRec.username.getD []) = stripL (lowerL ['b', 'o', 'b'])
      ∧ lowerL ['x'] ≠ stripL (lowerL ['b', 'o', 'b']) := by
  decide

/-- C1 (amended): `get_user_by_username_or_email` performs a single pass
and returns the first identity in list order that matches the normalized
identifier by username or email, with the username comparison made before
the email comparison only within each record; an identity matching only by
email that appears earlier in the list is returned ahead of a later
username match. -/
theorem get_user_is_first_single_pass_match (users : List UserRec) (identifier : List Char) :
    get_user_by_username_or_email users identifier
      = (users.find? (fun u =>
            lowerL (u.username.getD []) == stripL (lowerL identifier)
              || lowerL (u.email.getD []) == stripL (lowerL identifier))).map
          mkUserFromRec := by
  unfold get_user_by_username_or_email
  induction users with
  | nil => rfl
  | cons u rest ih =>
    by_cases h1 : lowerL (u.username.getD []) = stripL (lowerL identifier)
    · simp [guScan, h1, List.find?]
    · by_cases h2 : lowerL (u.email.getD []) = stripL (lowerL identifier)
      · simp [guScan, h1, h2, List.find?]
      · have hb1 : (lowerL (u.username.getD []) == stripL (lowerL identifier)) = false := by
          simp [h1]
        have hb2 : (lowerL (u.email.getD []) == stripL (lowerL identifier)) = false := by
          simp [h2]
        simp [guScan, h1, h2, List.find?, hb1, hb2, ih]

/-! ## Claim C2: key rotation with a body lacking the `key` field -/

/-- C2 counterexample: a non-empty rotation response body `{}` parses to an
object without a `key` field, and `generate_api_key` returns the fabricated
`DT-Token-...` placeholder instead of failing. -/
theorem generate_api_key_fabricates_on_missing_key :
    generate_api_key ['u', '1'] ['7'] (.ok [123, 125])
        = .ok (dtTokenPlaceholder ['u', '1'] ['7'])
      ∧ ([123, 125] : List Nat) ≠ []
      ∧ jsonParseBytes [123, 125] = some (.jobj [])
      ∧ dictGet [] keyBytes = none := by
  refine ⟨rfl, by decide, rfl, rfl⟩

/-- C2 (amended): `generate_api_key` raises the issuance error only for an
*empty* response body; for a non-empty body that parses to an object with
no `key` field it returns the fabricated placeholder
`DT-Token-{uuid}-{now}` instead of an error. -/
theorem generate_api_key_empty_vs_missing_key (uuid now : List Char) (body : List Nat) :
    generate_api_key uuid now (.ok []) = .error .issuanceErr
      ∧ (∀ ms, jsonParseBytes body = some (.jobj ms) → dictGet ms keyBytes = none →
          generate_api_key uuid now (.ok body) = .ok (dtTokenPlaceholder uuid now)) := by
  constructor
  · rfl
  · intro ms h1 h2
    by_cases hb : body = []
    · subst hb
      exact Option.noConfusion h1
    · unfold generate_api_key
      simp [hb, h1, h2]

/-- C2 witness: the amended claim at the concrete body `{}`. -/
theorem generate_api_key_empty_vs_missing_key_witness :
    generate_api_key ['u'] ['9'] (.ok [123, 125]) = .ok (dtTokenPlaceholder ['u'] ['9']) :=
  (generate_api_key_empty_vs_missing_key ['u'] ['9'] [123, 125]).2 [] (by rfl) (by rfl)

/-! ## Claim C3: propagation of Directory Client failures -/

/-- C3 counterexample: a Directory Client failure while fetching the
identity list is swallowed by `get_username_from_email`, which returns the
not-found result `None` instead of propagating the error. -/
theorem get_username_swallows_directory_failure :
    get_username_from_email (.error .transportFailed) ['a', '@', 'b'] = none := rfl

/-- C3 (amended): `find_team_by_name` propagates every Directory Client
failure unchanged, while `get_username_from_email` catches every failure
(transport error, 401/403 or any other HTTP error) and converts it into
the not-found result `None`. -/
theorem directory_failure_propagation (e : DTErr) (teamName q : List Char) :
    find_team_by_name (.error e) teamName = .error e
      ∧ get_username_from_email (.error e) q = none :=
  ⟨rfl, rfl⟩

/-! ## Claims C4/C5: the login fallback state machine -/

/-- If no record's email matches the normalized query, the
`get_username_from_email` scan either finishes without a hit or aborts on a
record with a missing email; both are turned into `None`. -/
theorem ueScanE_no_match {q : List Char} {users : List UserRec}
    (h : ∀ u ∈ users, ∀ e, u.email = some e → lowerL e ≠ q) :
    ueScanE q users = .ok none ∨ ueScanE q users = .error () := by
  induction users with
  | nil => left; rfl
  | cons u rest ih =>
    cases he : u.email with
    | none => right; simp [ueScanE, he]
    | some e =>
      have hne := h u (List.mem_cons_self u rest) e he
      simp only [ueScanE, he, if_neg hne]
      exact ih fun v hv e2 he2 => h v (List.mem_cons_of_mem u hv) e2 he2

/-- C4: for an identifier containing `@`, when the direct authentication
attempt fails and no managed identity's email case-insensitively equals the
normalized identifier, `authenticate_with_identifier` fails with the
identity-not-found error, and exactly one raw login call was made — the
initial direct attempt with the literal identifier — with one identity-list
fetch and no second raw login. -/
theorem email_identifier_unresolved_fails_after_one_login
    (loginEp : List Char → List Char → HttpResult) (users : List UserRec)
    (jwt0 : Option (List Char)) (identifier pw : List Char)
    (hAt : identifier.contains '@' = true)
    (hFail : (rawAuthenticate jwt0 (loginEp identifier pw)).2 ≠ none)
    (hNoEmail : ∀ u ∈ users, ∀ e, u.email = some e →
      lowerL e ≠ stripL (lowerL identifier)) :
    (authenticate_with_identifier loginEp (.ok users) jwt0 identifier pw).1
        = .error .identityNotFound
      ∧ (authenticate_with_identifier loginEp (.ok users) jwt0 identifier pw).2.2
        = ⟨[identifier], 1⟩ := by
  have hu : get_username_from_email (.ok users) identifier = none := by
    unfold get_username_from_email
    rcases ueScanE_no_match hNoEmail with h | h <;> simp [h]
  unfold authenticate_with_identifier
  have hmem : '@' ∈ identifier := by simpa using hAt
  cases ha : (rawAuthenticate jwt0 (loginEp identifier pw)).2 with
  | none => exact absurd ha hFail
  | some e => simp [ha, hmem, hu]

/-- C4 witness: a 401 on the direct attempt for `a@b` against an empty
identity list. -/
theorem email_identifier_unresolved_fails_after_one_login_witness :
    (authenticate_with_identifier (fun _ _ => .resp 401 []) (.ok []) none
        ['a', '@', 'b'] ['p']).1 = .error .identityNotFound
      ∧ (authenticate_with_identifier (fun _ _ => .resp 401 []) (.ok []) none
        ['a', '@', 'b'] ['p']).2.2 = ⟨[['a', '@', 'b']], 1⟩ :=
  email_identifier_unresolved_fails_after_one_login (fun _ _ => .resp 401 []) [] none
    ['a', '@', 'b'] ['p'] (by decide) (by decide) (by simp)

/-- C5: for an identifier not containing `@`, a failed direct
authentication attempt makes `authenticate_with_identifier` fail with the
catch-all authentication error without ever fetching the identity list
(no email resolution for bare usernames), after the single direct raw
login call. -/
theorem bare_username_failure_skips_email_resolution
    (loginEp : List Char → List Char → HttpResult) (dirFetch : Except DTErr (List UserRec))
    (jwt0 : Option (List Char)) (identifier pw : List Char)
    (hAt : identifier.contains '@' = false)
    (hFail : (rawAuthenticate jwt0 (loginEp identifier pw)).2 ≠ none) :
    (authenticate_with_identifier loginEp dirFetch jwt0 identifier pw).1
        = .error .authFailed
      ∧ (authenticate_with_identifier loginEp dirFetch jwt0 identifier pw).2.2
        = ⟨[identifier], 0⟩ := by
  unfold authenticate_with_identifier
  have hmem : ¬('@' ∈ identifier) := by simpa using hAt
  cases ha : (rawAuthenticate jwt0 (loginEp identifier pw)).2 with
  | none => exact absurd ha hFail
  | some e => simp [ha, hmem]

/-- C5 witness: a 403 on the direct attempt for the bare username `jdoe`. -/
theorem bare_username_failure_skips_email_resolution_witness :
    (authenticate_with_identifier (fun _ _ => .resp 403 []) (.error .transportFailed) none
        "jdoe".toList ['p']).1 = .error .authFailed
      ∧ (authenticate_with_identifier (fun _ _ => .resp 403 []) (.error .transportFailed) none
        "jdoe".toList ['p']).2.2 = ⟨["jdoe".toList], 0⟩ :=
  bare_username_failure_skips_email_resolution (fun _ _ => .resp 403 [])
    (.error .transportFailed) none "jdoe".toList ['p'] (by decide) (by decide)

/-! ## Claim C6: the raw authentication call -/

/-- The success condition of `_authenticate`: HTTP 200 and a
whitespace-stripped body beginning with `eyJ`. -/
def statusBodyOk : HttpResult → Prop
  | .transportFail => False
  | .resp status body => status = 200 ∧ eyJ.isPrefixOf (stripL body) = true

/-- The response body of a completed login request. -/
def respBody : HttpResult → List Char
  | .transportFail => []
  | .resp _ body => body

/-- C6: `_authenticate` succeeds exactly when the status is 200 and the
stripped body begins with `eyJ`; on success the stripped body is the stored
bearer token, and on any failure (transport error, other status, or a 200
body without the prefix) it raises and the stored token is unchanged. -/
theorem raw_authenticate_success_iff_200_eyJ (jwt : Option (List Char)) (r : HttpResult) :
    ((rawAuthenticate jwt r).2 = none ↔ statusBodyOk r)
      ∧ ((rawAuthenticate jwt r).2 = none →
          (rawAuthenticate jwt r).1 = some (stripL (respBody r)))
      ∧ ((rawAuthenticate jwt r).2 ≠ none → (rawAuthenticate jwt r).1 = jwt) := by
  cases r with
  | transportFail => simp [rawAuthenticate, statusBodyOk]
  | resp status body =>
    by_cases hs : status = 200
    · by_cases hp : eyJ.isPrefixOf (stripL body) = true
      · simp [rawAuthenticate, statusBodyOk, respBody, hs, hp]
      · simp [rawAuthenticate, statusBodyOk, respBody, hs, hp]
    · simp [rawAuthenticate, statusBodyOk, respBody, hs]

/-- C6 witness: a 200 response with a padded `eyJ` body stores the stripped
token; a 401 response leaves the (absent) token unchanged. -/
theorem raw_authenticate_success_iff_200_eyJ_witness :
    (rawAuthenticate none (.resp 200 " eyJx ".toList)).1 = some "eyJx".toList
      ∧ (rawAuthenticate none (.resp 401 "eyJx".toList)).1 = none := by
  constructor
  · have h := (raw_authenticate_success_iff_200_eyJ none (.resp 200 " eyJx ".toList)).2.1
      ((raw_authenticate_success_iff_200_eyJ none (.resp 200 " eyJx ".toList)).1.mpr
        ⟨rfl, by decide⟩)
    rw [h]
    decide
  · exact (raw_authenticate_success_iff_200_eyJ none (.resp 401 "eyJx".toList)).2.2 (by decide)

/-! ## Claim C10: a record with a missing email aborts the email scan -/

/-- C10: when a record lacking the `email` field appears in the identity
list and no record before it matches the queried address, the attribute
access on the missing email aborts the scan, the exception is caught
internally, and `get_username_from_email` returns `None` — even when a
matching record follows later in the list.  (Totality of the embedded
function is the never-raises part of the claim.) -/
theorem missing_email_aborts_lookup (pre post : List UserRec) (u : UserRec) (q : List Char)
    (hmiss : u.email = none)
    (hpre : ∀ v ∈ pre, ∀ e, v.email = some e → lowerL e ≠ stripL (lowerL q)) :
    get_username_from_email (.ok (pre ++ u :: post)) q = none := by
  unfold get_username_from_email
  have habort : ueScanE (stripL (lowerL q)) (pre ++ u :: post) = .error () := by
    induction pre with
    | nil => simp [ueScanE, hmiss]
    | cons v rest ih =>
      cases he : v.email with
      | none => simp [ueScanE, he]
      | some e =>
        have hne := hpre v (List.mem_cons_self v rest) e he
        simp only [List.cons_append, ueScanE, he, if_neg hne]
        exact ih fun w hw e2 he2 => hpre w (List.mem_cons_of_mem v hw) e2 he2
  simp [habort]

/-- C10 witness: the first record has no email, the second matches the
queried address; the lookup still returns `None`. -/
theorem missing_email_aborts_lookup_witness :
    get_username_from_email (.ok
        [⟨some ['j'], none, none, none, none, none, none, none⟩,
         ⟨some ['k'], some ['a', '@', 'b'], none, none, none, none, none, none⟩])
      ['a', '@', 'b'] = none :=
  missing_email_aborts_lookup []
    [⟨some ['k'], some ['a', '@', 'b'], none, none, none, none, none, none⟩]
    ⟨some ['j'], none, none, none, none, none, none, none⟩ ['a', '@', 'b'] rfl
    (by simp)

/-! ## Claim C9: team selection and key rotation targeting -/

/-- C9: with auto-confirm, `generate_api_key_for_team` issues the rotate
request against the uuid of the team selected by `find_team_by_name`; when
no team name matches case-insensitively it returns the not-found failure
and issues no rotate request; and the selected team is the first
case-insensitive name match in list order. -/
theorem issue_key_targets_first_matching_team (teams : List TeamRec)
    (teamName confirmInput now : List Char)
    (rotateResp : List Char → Except DTErr (List Nat)) :
    (∀ t, ftScan teamName teams = some t →
        (generate_api_key_for_team (.ok teams) teamName true confirmInput rotateResp now).2
          = some t.uuid)
      ∧ (ftScan teamName teams = none →
          generate_api_key_for_team (.ok teams) teamName true confirmInput rotateResp now
            = (.ok false, none))
      ∧ (∀ pre t post, teams = pre ++ t :: post →
          (∀ t2 ∈ pre, teamNameMatches teamName t2 = false) →
          teamNameMatches teamName t = true → ftScan teamName teams = some t) := by
  refine ⟨?_, ?_, ?_⟩
  · intro t ht
    unfold generate_api_key_for_team find_team_by_name
    simp only [ht]
    cases hg : generate_api_key t.uuid now (rotateResp t.uuid) with
    | ok v => simp [hg]
    | error e => cases e <;> simp [hg]
  · intro hn
    unfold generate_api_key_for_team find_team_by_name
    simp [hn]
  · intro pre t post hsplit hpre hmatch
    subst hsplit
    induction pre with
    | nil => simp [ftScan, hmatch]
    | cons p rest ih =>
      have hp := hpre p (List.mem_cons_self p rest)
      simp only [List.cons_append, ftScan, hp]
      simp only [Bool.false_eq_true, if_false]
      exact ih fun t2 h2 => hpre t2 (List.mem_cons_of_mem p h2)

/-- C9 witness: the spec scenario — team list `[{name: "Security",
uuid: "u1"}]` and request `issueKey("security")` — rotates against uuid
`u1`. -/
theorem issue_key_targets_first_matching_team_witness :
    (generate_api_key_for_team (.ok [⟨"u1".toList, some "Security".toList⟩])
        "security".toList true [] (fun _ => .ok []) ['0']).2 = some "u1".toList :=
  (issue_key_targets_first_matching_team [⟨"u1".toList, some "Security".toList⟩]
      "security".toList [] ['0'] (fun _ => .ok [])).1
    ⟨"u1".toList, some "Security".toList⟩ (by decide)

/-! ## Claim C7: decode_jwt_payload on malformed input -/

/-- C7 counterexample: the token `a.MQ.b` has a well-formed structure whose
payload bytes decode to `1` — valid JSON but not a key-value map — and
`decode_jwt_payload` returns that bare value instead of the `None` result. -/
theorem decode_jwt_returns_non_map_value :
    decode_jwt_payload "a.MQ.b".toList = some (.jval (.jnum 1)) := by rfl

/-- C7 (amended): `decode_jwt_payload` is total and never raises past its
boundary; it returns `None` whenever a processing stage fails — a token
that does not split on `.` into exactly 3 segments, a padded second segment
whose base64 decoding fails, or decoded bytes that are not valid JSON.
(Decoded bytes that are valid JSON but not a key-value map are returned as
that bare value, still without raising.) -/
theorem decode_jwt_failure_stages_yield_none (token : List Char) :
    ((splitDot token).length ≠ 3 → decode_jwt_payload token = none)
      ∧ (∀ h p s, splitDot token = [h, p, s] →
          urlsafe_b64decode (p ++ List.replicate (4 - p.length % 4) '=') = none →
          decode_jwt_payload token = none)
      ∧ (∀ h p s bytes, splitDot token = [h, p, s] →
          urlsafe_b64decode (p ++ List.replicate (4 - p.length % 4) '=') = some bytes →
          jsonParseBytes bytes = none →
          decode_jwt_payload token = none) := by
  refine ⟨?_, ?_, ?_⟩
  · intro hlen
    rcases hs : splitDot token with _ | ⟨a, _ | ⟨b, _ | ⟨c, _ | ⟨d, l⟩⟩⟩⟩
    · simp [decode_jwt_payload, hs]
    · simp [decode_jwt_payload, hs]
    · simp [decode_jwt_payload, hs]
    · exact absurd (by rw [hs]; rfl) hlen
    · simp [decode_jwt_payload, hs]
  · intro h p s hs hdec
    simp [decode_jwt_payload, hs, hdec]
  · intro h p s bytes hs hdec hjson
    simp [decode_jwt_payload, hs, hdec, hjson]

/-- C7 witness: a 2-segment token, a segment whose base64 decode fails, and
a segment whose decoded bytes are not valid JSON each yield `None`. -/
theorem decode_jwt_failure_stages_yield_none_witness :
    decode_jwt_payload "ab".toList = none
      ∧ decode_jwt_payload "a.A.b".toList = none
      ∧ decode_jwt_payload "a..b".toList = none :=
  ⟨(decode_jwt_failure_stages_yield_none "ab".toList).1 (by decide),
   (decode_jwt_failure_stages_yield_none "a.A.b".toList).2.1 ['a'] ['A'] ['b']
     (by decide) (by decide),
   (decode_jwt_failure_stages_yield_none "a..b".toList).2.2 ['a'] [] ['b'] []
     (by decide) (by decide) (by decide)⟩

/-! ## Claim C8: round trip through encode → decode

Infrastructure: splitting a 3-segment token, base64 decode of the padded
encoding, and JSON parse of the serialised object. -/

theorem splitDot_no_dot {l : List Char} (h : '.' ∉ l) : splitDot l = [l] := by
  induction l with
  | nil => rfl
  | cons c rest ih =>
    have hc : c ≠ '.' := fun hc => h (hc ▸ List.mem_cons_self c rest)
    have hrest : '.' ∉ rest := fun hr => h (List.mem_cons_of_mem c hr)
    simp [splitDot, hc, ih hrest]

theorem splitDot_append {p : List Char} (s : List Char) (hp : '.' ∉ p) :
    splitDot (p ++ '.' :: s) = p :: splitDot s := by
  induction p with
  | nil => simp [splitDot]
  | cons c rest ih =>
    have hc : c ≠ '.' := fun hc => hp (hc ▸ List.mem_cons_self c rest)
    have hrest : '.' ∉ rest := fun hr => hp (List.mem_cons_of_mem c hr)
    simp [splitDot, hc, ih hrest]

/-- Splitting a three-segment dot-free token. -/
theorem splitDot_three {h p s : List Char} (hh : '.' ∉ h) (hp : '.' ∉ p) (hs : '.' ∉ s) :
    splitDot (h ++ '.' :: p ++ '.' :: s) = [h, p, s] := by
  rw [show h ++ '.' :: p ++ '.' :: s = h ++ '.' :: (p ++ '.' :: s) by simp]
  rw [splitDot_append (p ++ '.' :: s) hh, splitDot_append s hp, splitDot_no_dot hs]

/-- Alphabet facts for every 6-bit value, by exhaustive evaluation. -/
theorem b64Char_spec :
    ∀ v < 64, b64Index (b64Char v) = some v ∧ b64Char v ≠ '=' ∧ b64Char v ≠ '.' := by
  decide

/-- One data character advances the decode loop one quad position. -/
theorem b64DecLoop_data_cons (c : Char) (rest : List Char) (qp left pads : Nat)
    (acc : List Nat) (v : Nat) (hne : c ≠ '=') (hidx : b64Index c = some v) :
    b64DecLoop (c :: rest) qp left pads acc =
      if qp = 0 then b64DecLoop rest 1 v 0 acc
      else if qp = 1 then b64DecLoop rest 2 (v % 16) 0 (acc ++ [left * 4 + v / 16])
      else if qp = 2 then b64DecLoop rest 3 (v % 4) 0 (acc ++ [left * 16 + v / 4])
      else b64DecLoop rest 0 0 0 (acc ++ [left * 64 + v]) := by
  simp [b64DecLoop, hne, hidx]

/-- One padding character either ends the decode or is skipped. -/
theorem b64DecLoop_pad_cons (rest : List Char) (qp left pads : Nat) (acc : List Nat) :
    b64DecLoop ('=' :: rest) qp left pads acc =
      if 2 ≤ qp then
        (if 4 ≤ qp + pads + 1 then some acc else b64DecLoop rest qp left (pads + 1) acc)
      else b64DecLoop rest qp left pads acc := by
  simp [b64DecLoop]

/-- Padding characters at quad position 0 are all skipped. -/
theorem b64DecLoop_pads_qp0 (k : Nat) (left pads : Nat) (acc : List Nat) :
    b64DecLoop (List.replicate k '=') 0 left pads acc = some acc := by
  induction k generalizing pads with
  | zero => rfl
  | succ n ih => rw [List.replicate_succ, b64DecLoop_pad_cons]; simp [ih]

theorem b64DecLoop_step0 (c : Char) (rest : List Char) (left pads : Nat) (acc : List Nat)
    (v : Nat) (hne : c ≠ '=') (hidx : b64Index c = some v) :
    b64DecLoop (c :: rest) 0 left pads acc = b64DecLoop rest 1 v 0 acc := by
  rw [b64DecLoop_data_cons _ _ _ _ _ _ _ hne hidx]
  norm_num

theorem b64DecLoop_step1 (c : Char) (rest : List Char) (left pads : Nat) (acc : List Nat)
    (v : Nat) (hne : c ≠ '=') (hidx : b64Index c = some v) :
    b64DecLoop (c :: rest) 1 left pads acc
      = b64DecLoop rest 2 (v % 16) 0 (acc ++ [left * 4 + v / 16]) := by
  rw [b64DecLoop_data_cons _ _ _ _ _ _ _ hne hidx]
  norm_num

theorem b64DecLoop_step2 (c : Char) (rest : List Char) (left pads : Nat) (acc : List Nat)
    (v : Nat) (hne : c ≠ '=') (hidx : b64Index c = some v) :
    b64DecLoop (c :: rest) 2 left pads acc
      = b64DecLoop rest 3 (v % 4) 0 (acc ++ [left * 16 + v / 4]) := by
  rw [b64DecLoop_data_cons _ _ _ _ _ _ _ hne hidx]
  norm_num

theorem b64DecLoop_step3 (c : Char) (rest : List Char) (left pads : Nat) (acc : List Nat)
    (v : Nat) (hne : c ≠ '=') (hidx : b64Index c = some v) :
    b64DecLoop (c :: rest) 3 left pads acc
      = b64DecLoop rest 0 0 0 (acc ++ [left * 64 + v]) := by
  rw [b64DecLoop_data_cons _ _ _ _ _ _ _ hne hidx]
  norm_num

theorem b64DecLoop_pad20 (rest : List Char) (left : Nat) (acc : List Nat) :
    b64DecLoop ('=' :: rest) 2 left 0 acc = b64DecLoop rest 2 left 1 acc := by
  rw [b64DecLoop_pad_cons]
  norm_num

theorem b64DecLoop_pad21 (rest : List Char) (left : Nat) (acc : List Nat) :
    b64DecLoop ('=' :: rest) 2 left 1 acc = some acc := by
  rw [b64DecLoop_pad_cons]
  norm_num

theorem b64DecLoop_pad30 (rest : List Char) (left : Nat) (acc : List Nat) :
    b64DecLoop ('=' :: rest) 3 left 0 acc = some acc := by
  rw [b64DecLoop_pad_cons]
  norm_num

/-- Decoding the Python-padded unpadded encoding of a byte string yields
exactly those bytes, for every byte-string length (including the lengths
divisible by 3, where the padding rule appends four `=` characters that the
lenient decoder skips at quad position 0). -/
theorem b64DecLoop_encode (bs : List Nat) (h : ∀ b ∈ bs, b < 256) (k : Nat)
    (hk : (b64UrlEncodeNoPad bs).length % 4 + k = 4) (acc : List Nat) :
    b64DecLoop (b64UrlEncodeNoPad bs ++ List.replicate k '=') 0 0 0 acc
      = some (acc ++ bs) := by
  induction bs using b64UrlEncodeNoPad.induct generalizing acc k with
  | case1 b1 b2 b3 rest ih =>
    have hb1 : b1 < 256 := h b1 (by simp)
    have hb2 : b2 < 256 := h b2 (by simp)
    have hb3 : b3 < 256 := h b3 (by simp)
    have hv1 : b1 / 4 < 64 := by omega
    have hv2 : b1 % 4 * 16 + b2 / 16 < 64 := by omega
    have hv3 : b2 % 16 * 4 + b3 / 64 < 64 := by omega
    have hv4 : b3 % 64 < 64 := by omega
    obtain ⟨hi1, hne1, -⟩ := b64Char_spec _ hv1
    obtain ⟨hi2, hne2, -⟩ := b64Char_spec _ hv2
    obtain ⟨hi3, hne3, -⟩ := b64Char_spec _ hv3
    obtain ⟨hi4, hne4, -⟩ := b64Char_spec _ hv4
    have hlen : (b64UrlEncodeNoPad (b1 :: b2 :: b3 :: rest)).length
        = (b64UrlEncodeNoPad rest).length + 4 := by
      simp [b64UrlEncodeNoPad]
    have hk2 : (b64UrlEncodeNoPad rest).length % 4 + k = 4 := by
      rw [hlen] at hk
      omega
    simp only [b64UrlEncodeNoPad, List.cons_append]
    rw [b64DecLoop_step0 _ _ _ _ _ _ hne1 hi1]
    rw [b64DecLoop_step1 _ _ _ _ _ _ hne2 hi2]
    rw [b64DecLoop_step2 _ _ _ _ _ _ hne3 hi3]
    rw [b64DecLoop_step3 _ _ _ _ _ _ hne4 hi4]
    have e1 : b1 / 4 * 4 + (b1 % 4 * 16 + b2 / 16) / 16 = b1 := by omega
    have e2 : (b1 % 4 * 16 + b2 / 16) % 16 * 16 + (b2 % 16 * 4 + b3 / 64) / 4 = b2 := by
      omega
    have e3 : (b2 % 16 * 4 + b3 / 64) % 4 * 64 + b3 % 64 = b3 := by omega
    rw [e1, e2, e3]
    have hrec := ih (fun b hb => h b (by simp [hb])) k hk2 (acc ++ [b1] ++ [b2] ++ [b3])
    simpa using hrec
  | case2 b1 b2 =>
    have hb1 : b1 < 256 := h b1 (by simp)
    have hb2 : b2 < 256 := h b2 (by simp)
    have hv1 : b1 / 4 < 64 := by omega
    have hv2 : b1 % 4 * 16 + b2 / 16 < 64 := by omega
    have hv3 : b2 % 16 * 4 < 64 := by omega
    obtain ⟨hi1, hne1, -⟩ := b64Char_spec _ hv1
    obtain ⟨hi2, hne2, -⟩ := b64Char_spec _ hv2
    obtain ⟨hi3, hne3, -⟩ := b64Char_spec _ hv3
    have hk1 : k = 1 := by
      simp [b64UrlEncodeNoPad] at hk
      omega
    subst hk1
    simp only [b64UrlEncodeNoPad, List.cons_append, List.nil_append,
      List.replicate_succ, List.replicate_zero]
    rw [b64DecLoop_step0 _ _ _ _ _ _ hne1 hi1]
    rw [b64DecLoop_step1 _ _ _ _ _ _ hne2 hi2]
    rw [b64DecLoop_step2 _ _ _ _ _ _ hne3 hi3]
    rw [b64DecLoop_pad30]
    have e1 : b1 / 4 * 4 + (b1 % 4 * 16 + b2 / 16) / 16 = b1 := by omega
    have e2 : (b1 % 4 * 16 + b2 / 16) % 16 * 16 + (b2 % 16 * 4) / 4 = b2 := by omega
    rw [e1, e2]
    simp
  | case3 b1 =>
    have hb1 : b1 < 256 := h b1 (by simp)
    have hv1 : b1 / 4 < 64 := by omega
    have hv2 : b1 % 4 * 16 < 64 := by omega
    obtain ⟨hi1, hne1, -⟩ := b64Char_spec _ hv1
    obtain ⟨hi2, hne2, -⟩ := b64Char_spec _ hv2
    have hk2 : k = 2 := by
      simp [b64UrlEncodeNoPad] at hk
      omega
    subst hk2
    simp only [b64UrlEncodeNoPad, List.cons_append, List.nil_append,
      List.replicate_succ, List.replicate_zero]
    rw [b64DecLoop_step0 _ _ _ _ _ _ hne1 hi1]
    rw [b64DecLoop_step1 _ _ _ _ _ _ hne2 hi2]
    rw [b64DecLoop_pad20, b64DecLoop_pad21]
    have e1 : b1 / 4 * 4 + (b1 % 4 * 16) / 16 = b1 := by omega
    rw [e1]
  | case4 =>
    simp only [b64UrlEncodeNoPad, List.nil_append, List.append_nil]
    exact b64DecLoop_pads_qp0 k 0 0 acc

/-- `urlsafe_b64decode` inverts the unpadded encoding after the script's
padding rule `'=' * (4 - len % 4)` is applied. -/
theorem urlsafe_b64decode_encode (bs : List Nat) (h : ∀ b ∈ bs, b < 256) :
    urlsafe_b64decode (b64UrlEncodeNoPad bs
        ++ List.replicate (4 - (b64UrlEncodeNoPad bs).length % 4) '=') = some bs := by
  unfold urlsafe_b64decode
  have hmod : (b64UrlEncodeNoPad bs).length % 4 < 4 := Nat.mod_lt _ (by omega)
  have hk : (b64UrlEncodeNoPad bs).length % 4
      + (4 - (b64UrlEncodeNoPad bs).length % 4) = 4 := by omega
  simpa using b64DecLoop_encode bs h _ hk []

/-- Every character of the unpadded encoding is in the url-safe alphabet;
in particular none of them is a dot. -/
theorem b64UrlEncodeNoPad_no_dot (bs : List Nat) (h : ∀ b ∈ bs, b < 256) :
    '.' ∉ b64UrlEncodeNoPad bs := by
  induction bs using b64UrlEncodeNoPad.induct with
  | case1 b1 b2 b3 rest ih =>
    have hb1 : b1 < 256 := h b1 (by simp)
    have hb2 : b2 < 256 := h b2 (by simp)
    have hb3 : b3 < 256 := h b3 (by simp)
    have h1 := (b64Char_spec (b1 / 4) (by omega)).2.2
    have h2 := (b64Char_spec (b1 % 4 * 16 + b2 / 16) (by omega)).2.2
    have h3 := (b64Char_spec (b2 % 16 * 4 + b3 / 64) (by omega)).2.2
    have h4 := (b64Char_spec (b3 % 64) (by omega)).2.2
    have hrest := ih (fun b hb => h b (by simp [hb]))
    simp only [b64UrlEncodeNoPad, List.mem_cons]
    intro hc
    rcases hc with hc | hc | hc | hc | hc
    · exact h1 hc.symm
    · exact h2 hc.symm
    · exact h3 hc.symm
    · exact h4 hc.symm
    · exact hrest hc
  | case2 b1 b2 =>
    have hb1 : b1 < 256 := h b1 (by simp)
    have hb2 : b2 < 256 := h b2 (by simp)
    have h1 := (b64Char_spec (b1 / 4) (by omega)).2.2
    have h2 := (b64Char_spec (b1 % 4 * 16 + b2 / 16) (by omega)).2.2
    have h3 := (b64Char_spec (b2 % 16 * 4) (by omega)).2.2
    simp only [b64UrlEncodeNoPad, List.mem_cons]
    intro hc
    rcases hc with hc | hc | hc | hc
    · exact h1 hc.symm
    · exact h2 hc.symm
    · exact h3 hc.symm
    · simp at hc
  | case3 b1 =>
    have hb1 : b1 < 256 := h b1 (by simp)
    have h1 := (b64Char_spec (b1 / 4) (by omega)).2.2
    have h2 := (b64Char_spec (b1 % 4 * 16) (by omega)).2.2
    simp only [b64UrlEncodeNoPad, List.mem_cons]
    intro hc
    rcases hc with hc | hc | hc
    · exact h1 hc.symm
    · exact h2 hc.symm
    · simp at hc
  | case4 => simp [b64UrlEncodeNoPad]

theorem skipWs_not_ws {b : Nat} (h : isWsB b = false) (l : List Nat) :
    skipWs (b :: l) = b :: l := by
  simp [skipWs, h]

theorem parseStr_escAll (s : List Nat) (rest : List Nat) :
    parseStr (escAll s ++ 34 :: rest) = some (s, rest) := by
  induction s with
  | nil =>
    show parseStr (([] : List Nat) ++ 34 :: rest) = some ([], rest)
    rw [List.nil_append, parseStr.eq_def]
    simp
  | cons b t ih =>
    by_cases hb : b = 34 ∨ b = 92
    · have hesc : escByte b = [92, b] := by simp [escByte, hb]
      have hu : unesc b = some b := by rcases hb with rfl | rfl <;> rfl
      simp only [escAll, hesc, List.cons_append, List.append_assoc, List.nil_append]
      rw [show parseStr (92 :: b :: (escAll t ++ 34 :: rest))
          = (match unesc b with
             | none => none
             | some x =>
               match parseStr (escAll t ++ 34 :: rest) with
               | none => none
               | some (s2, rr) => some (x :: s2, rr)) from rfl]
      simp [hu, ih]
    · push_neg at hb
      obtain ⟨hb1, hb2⟩ := hb
      have hesc : escByte b = [b] := by simp [escByte, hb1, hb2]
      simp only [escAll, hesc, List.cons_append]
      rw [parseStr.eq_def]
      simp [hb1, hb2, ih]

theorem natDigits_ne_nil (n : Nat) : natDigits n ≠ [] := by
  rw [natDigits]
  split <;> simp

theorem natDigits_digits (n : Nat) : ∀ d ∈ natDigits n, isDigitB d = true := by
  induction n using natDigits.induct with
  | case1 n hn =>
    rw [natDigits, if_pos hn]
    intro d hd
    simp at hd
    simp [hd, isDigitB]
    omega
  | case2 n hn ih =>
    rw [natDigits, if_neg hn]
    intro d hd
    rcases List.mem_append.mp hd with hd | hd
    · exact ih d hd
    · simp at hd
      have : n % 10 < 10 := Nat.mod_lt _ (by omega)
      simp [hd, isDigitB]
      omega

theorem natDigits_foldl (n : Nat) :
    ∀ acc, (natDigits n).foldl (fun a d => a * 10 + (d - 48)) acc
      = acc * 10 ^ (natDigits n).length + n := by
  induction n using natDigits.induct with
  | case1 n hn =>
    intro acc
    rw [natDigits, if_pos hn]
    simp
  | case2 n hn ih =>
    intro acc
    rw [natDigits, if_neg hn]
    rw [List.foldl_append]
    rw [ih acc]
    simp only [List.foldl_cons, List.foldl_nil, List.length_append, List.length_cons,
      List.length_nil]
    have h1 : 48 + n % 10 - 48 = n % 10 := by omega
    rw [h1]
    have h2 : acc * 10 ^ ((natDigits (n / 10)).length + (0 + 1))
        = acc * 10 ^ (natDigits (n / 10)).length * 10 := by ring
    rw [h2]
    have h3 := Nat.div_add_mod n 10
    omega

theorem numGo_append (ds : List Nat) (hd : ∀ d ∈ ds, isDigitB d = true) (rest : List Nat)
    (hrest : ∀ d, rest.head? = some d → isDigitB d = false) (acc : Nat) :
    numGo (ds ++ rest) acc = (ds.foldl (fun a d => a * 10 + (d - 48)) acc, rest) := by
  induction ds generalizing acc with
  | nil =>
    cases rest with
    | nil => rfl
    | cons r t =>
      have hr := hrest r rfl
      simp [numGo, hr]
  | cons d t ih =>
    have hdd : isDigitB d = true := hd d (by simp)
    simp only [List.cons_append, numGo, hdd, if_true, List.foldl_cons]
    exact ih (fun x hx => hd x (by simp [hx])) _

theorem parseNum_natDigits (n : Nat) (rest : List Nat)
    (hrest : ∀ d, rest.head? = some d → isDigitB d = false) :
    parseNum (natDigits n ++ rest) = some (n, rest) := by
  rcases hnd : natDigits n with _ | ⟨d, t⟩
  · exact absurd hnd (natDigits_ne_nil n)
  · have hdig : ∀ x ∈ natDigits n, isDigitB x = true := natDigits_digits n
    rw [hnd] at hdig
    have hdd : isDigitB d = true := hdig d (by simp)
    simp only [List.cons_append, parseNum, hdd, if_true]
    rw [numGo_append t (fun x hx => hdig x (by simp [hx])) rest hrest]
    have hfold := natDigits_foldl n 0
    rw [hnd] at hfold
    simp only [List.foldl_cons] at hfold
    simp only [Nat.zero_mul, Nat.zero_add] at hfold
    rw [hfold]

theorem serVal_head_not_ws (v : JVal) (rest : List Nat) :
    skipWs (serVal v ++ rest) = serVal v ++ rest := by
  cases v with
  | jstr s =>
    simp only [serVal, serStr, List.cons_append]
    exact skipWs_not_ws (by decide) _
  | jnum n =>
    rcases hnd : natDigits n with _ | ⟨d, t⟩
    · exact absurd hnd (natDigits_ne_nil n)
    · have hdd : isDigitB d = true := natDigits_digits n d (by simp [hnd])
      have hws : isWsB d = false := by
        simp [isDigitB] at hdd
        simp [isWsB]
        omega
      simp only [serVal, hnd, List.cons_append]
      exact skipWs_not_ws hws _

theorem parseVal_ser (v : JVal) (rest : List Nat)
    (hrest : ∀ d, rest.head? = some d → isDigitB d = false) :
    parseVal (serVal v ++ rest) = some (v, rest) := by
  cases v with
  | jstr s =>
    simp only [serVal, serStr, List.cons_append, List.append_assoc, List.singleton_append]
    simp [parseVal, parseStr_escAll]
  | jnum n =>
    rcases hnd : natDigits n with _ | ⟨d, t⟩
    · exact absurd hnd (natDigits_ne_nil n)
    · have hdd : isDigitB d = true := natDigits_digits n d (by simp [hnd])
      have h34 : d ≠ 34 := by
        simp [isDigitB] at hdd
        omega
      have hnum := parseNum_natDigits n rest hrest
      rw [hnd] at hnum
      simp only [serVal, hnd, List.cons_append]
      simp only [List.cons_append] at hnum
      simp [parseVal, h34, hdd, hnum]

theorem parsePair_ser (k : List Nat) (v : JVal) (rest : List Nat)
    (hrest : ∀ d, rest.head? = some d → isDigitB d = false) :
    parsePair (serPair (k, v) ++ rest) = some ((k, v), rest) := by
  have hshape : serPair (k, v) ++ rest
      = 34 :: (escAll k ++ 34 :: (58 :: (serVal v ++ rest))) := by
    simp [serPair, serStr]
  rw [hshape]
  unfold parsePair
  rw [skipWs_not_ws (by rfl)]
  simp only [parseStr_escAll]
  rw [skipWs_not_ws (by rfl)]
  simp only [serVal_head_not_ws, parseVal_ser v rest hrest]
  simp

/-- Unfolding lemma for `parseMembers` without the named match scrutinees
used for the termination proof. -/
theorem parseMembers_eq (l : List Nat) :
    parseMembers l
      = (match parsePair l with
        | none => none
        | some (kv, r) =>
          match skipWs r with
          | [] => none
          | c :: r2 =>
            if c = 44 then
              match parseMembers r2 with
              | none => none
              | some (ms, rr) => some (kv :: ms, rr)
            else if c = 125 then some ([kv], r2)
            else none) := by
  rw [parseMembers]
  split
  next hpp => rw [hpp]
  next kv r hpp =>
    rw [hpp]
    split
    next hss => simp [hss]
    next c r2 hss => simp [hss]

/-- The serialised members of a non-empty object start with a quote. -/
theorem serMembers_head (m : List (List Nat × JVal)) (h : m ≠ []) :
    ∃ t, serMembers m = 34 :: t := by
  cases m with
  | nil => contradiction
  | cons kv m2 =>
    cases m2 with
    | nil =>
      obtain ⟨k, v⟩ := kv
      exact ⟨escAll k ++ 34 :: (58 :: serVal v), by simp [serMembers, serPair, serStr]⟩
    | cons kv2 m3 =>
      obtain ⟨k, v⟩ := kv
      exact ⟨escAll k ++ 34 :: (58 :: serVal v) ++ 44 :: serMembers (kv2 :: m3),
        by simp [serMembers, serPair, serStr]⟩

theorem parseMembers_ser (m : List (List Nat × JVal)) (hne : m ≠ []) (rest : List Nat) :
    parseMembers (serMembers m ++ 125 :: rest) = some (m, rest) := by
  induction m generalizing rest with
  | nil => contradiction
  | cons kv m2 ih =>
    obtain ⟨k, v⟩ := kv
    cases m2 with
    | nil =>
      have hp := parsePair_ser k v (125 :: rest) (by intro d hd; cases hd; rfl)
      rw [parseMembers_eq]
      simp only [serMembers, hp]
      rw [skipWs_not_ws (by rfl)]
      simp
    | cons kv2 m3 =>
      have hp := parsePair_ser k v (44 :: (serMembers (kv2 :: m3) ++ 125 :: rest))
        (by intro d hd; cases hd; rfl)
      have hshape : serMembers ((k, v) :: kv2 :: m3) ++ 125 :: rest
          = serPair (k, v) ++ (44 :: (serMembers (kv2 :: m3) ++ 125 :: rest)) := by
        simp [serMembers]
      rw [parseMembers_eq, hshape]
      simp only [hp]
      rw [skipWs_not_ws (by rfl)]
      simp only [ih (by simp)]
      simp

/-- Parsing the compact serialisation of a flat object recovers exactly its
member list. -/
theorem jsonParseBytes_serObj (m : List (List Nat × JVal)) :
    jsonParseBytes (serObj m) = some (.jobj m) := by
  cases m with
  | nil => rfl
  | cons kv m2 =>
    obtain ⟨t, ht⟩ := serMembers_head (kv :: m2) (by simp)
    have hobj : serObj (kv :: m2) = 123 :: (34 :: (t ++ [125])) := by
      simp [serObj, ht]
    have hmem : parseMembers (34 :: (t ++ [125])) = some (kv :: m2, []) := by
      have h0 := parseMembers_ser (kv :: m2) (by simp) []
      rw [ht] at h0
      simpa using h0
    have hbody : parseObjBody (34 :: (t ++ [125])) = some (kv :: m2, []) := by
      unfold parseObjBody
      rw [skipWs_not_ws (by rfl)]
      simp [hmem]
    rw [hobj]
    unfold jsonParseBytes
    rw [skipWs_not_ws (by rfl)]
    simp [hbody]
    rfl

/-- The string content carried by a scalar value (empty for numbers). -/
def jvalStrBytes : JVal → List Nat
  | .jstr s => s
  | .jnum _ => []

/-- All bytes of a scalar value's string content are bytes (< 256). -/
def jvalBytesLt (v : JVal) : Prop := ∀ b ∈ jvalStrBytes v, b < 256

instance (v : JVal) : Decidable (jvalBytesLt v) :=
  inferInstanceAs (Decidable (∀ b ∈ jvalStrBytes v, b < 256))

theorem escAll_lt {s : List Nat} (h : ∀ b ∈ s, b < 256) : ∀ x ∈ escAll s, x < 256 := by
  induction s with
  | nil => simp [escAll]
  | cons b t ih =>
    intro x hx
    simp only [escAll] at hx
    rcases List.mem_append.mp hx with hx | hx
    · have hb : b < 256 := h b (by simp)
      unfold escByte at hx
      split at hx <;> simp at hx <;> omega
    · exact ih (fun y hy => h y (by simp [hy])) x hx

theorem natDigits_lt (n : Nat) : ∀ d ∈ natDigits n, d < 256 := by
  intro d hd
  have := natDigits_digits n d hd
  simp [isDigitB] at this
  omega

theorem serVal_lt (v : JVal) (h : jvalBytesLt v) : ∀ b ∈ serVal v, b < 256 := by
  cases v with
  | jstr s =>
    intro b hb
    simp only [serVal, serStr] at hb
    rcases List.mem_cons.mp hb with rfl | hb2
    · omega
    rcases List.mem_append.mp hb2 with hb3 | hb3
    · exact escAll_lt h b hb3
    · simp at hb3; omega
  | jnum n =>
    intro b hb
    exact natDigits_lt n b hb

theorem serPair_lt (kv : List Nat × JVal) (hk : ∀ b ∈ kv.1, b < 256)
    (hv : jvalBytesLt kv.2) : ∀ b ∈ serPair kv, b < 256 := by
  intro b hb
  simp only [serPair] at hb
  rcases List.mem_append.mp hb with hb2 | hb2
  · simp only [serStr] at hb2
    rcases List.mem_cons.mp hb2 with rfl | hb3
    · omega
    rcases List.mem_append.mp hb3 with hb4 | hb4
    · exact escAll_lt hk b hb4
    · simp at hb4; omega
  · rcases List.mem_cons.mp hb2 with rfl | hb3
    · omega
    · exact serVal_lt kv.2 hv b hb3

theorem serMembers_lt (m : List (List Nat × JVal))
    (h : ∀ kv ∈ m, (∀ b ∈ kv.1, b < 256) ∧ jvalBytesLt kv.2) :
    ∀ b ∈ serMembers m, b < 256 := by
  induction m with
  | nil => intro b hb; simp [serMembers] at hb
  | cons kv m2 ih =>
    have hkv := h kv (by simp)
    cases m2 with
    | nil =>
      intro b hb
      rw [show serMembers [kv] = serPair kv from rfl] at hb
      exact serPair_lt kv hkv.1 hkv.2 b hb
    | cons kv2 m3 =>
      intro b hb
      rw [show serMembers (kv :: kv2 :: m3)
          = serPair kv ++ 44 :: serMembers (kv2 :: m3) from rfl] at hb
      rcases List.mem_append.mp hb with hb2 | hb2
      · exact serPair_lt kv hkv.1 hkv.2 b hb2
      · rcases List.mem_cons.mp hb2 with rfl | hb3
        · omega
        · exact ih (fun x hx => h x (by simp [hx])) b hb3

theorem serObj_lt (m : List (List Nat × JVal))
    (h : ∀ kv ∈ m, (∀ b ∈ kv.1, b < 256) ∧ jvalBytesLt kv.2) :
    ∀ b ∈ serObj m, b < 256 := by
  intro b hb
  simp only [serObj] at hb
  rcases List.mem_cons.mp hb with rfl | hb2
  · omega
  rcases List.mem_append.mp hb2 with hb3 | hb3
  · exact serMembers_lt m h b hb3
  · simp at hb3; omega

/-- C8: round trip.  For every payload map and every dot-free header and
signature segment, decoding the three-segment token whose second segment is
the unpadded base64url encoding of the map's serialisation recovers exactly
the original map.  This holds for every payload-segment length — in
particular lengths divisible by 4, where the decoder's padding rule
`'=' * (4 - len % 4)` appends four `=` characters that the lenient base64
decoder skips. -/
theorem decode_jwt_roundtrip (header sig : List Char) (m : List (List Nat × JVal))
    (hh : '.' ∉ header) (hs : '.' ∉ sig)
    (hbytes : ∀ kv ∈ m, (∀ b ∈ kv.1, b < 256) ∧ jvalBytesLt kv.2)
    (hnd : (m.map Prod.fst).Nodup) :
    decode_jwt_payload (header ++ '.' :: b64UrlEncodeNoPad (serObj m) ++ '.' :: sig)
      = some (.jobj m) := by
  have hlt : ∀ b ∈ serObj m, b < 256 := serObj_lt m hbytes
  have hnodot : '.' ∉ b64UrlEncodeNoPad (serObj m) := b64UrlEncodeNoPad_no_dot _ hlt
  have hsplit := splitDot_three hh hnodot hs
  unfold decode_jwt_payload
  rw [hsplit]
  simp only [urlsafe_b64decode_encode (serObj m) hlt, jsonParseBytes_serObj]

/-- The fixed known payload of the spec's round-trip test: `sub`, `iat` and
`exp` claims. -/
def subIatExpPayload : List (List Nat × JVal) :=
  [(charBytes "sub".toList, .jstr (charBytes "alice".toList)),
   (charBytes "iat".toList, .jnum 1700000000),
   (charBytes "exp".toList, .jnum 1700003600)]

/-- A payload whose serialisation is 9 bytes long, so its base64url segment
has length 12 — a multiple of 4, exercising the four-`=` padding case. -/
def mod4Payload : List (List Nat × JVal) := [(charBytes "aa".toList, .jnum 12)]

/-- C8 witness: the round trip at a concrete `sub`/`iat`/`exp` payload and
at a payload whose encoded segment length is a multiple of 4. -/
theorem decode_jwt_roundtrip_witness :
    decode_jwt_payload
        (['h'] ++ '.' :: b64UrlEncodeNoPad (serObj subIatExpPayload) ++ '.' :: ['s'])
        = some (.jobj subIatExpPayload)
      ∧ decode_jwt_payload
        (['h'] ++ '.' :: b64UrlEncodeNoPad (serObj mod4Payload) ++ '.' :: ['s'])
        = some (.jobj mod4Payload) :=
  ⟨decode_jwt_roundtrip ['h'] ['s'] subIatExpPayload (by decide) (by decide) (by decide)
      (by decide),
   decode_jwt_roundtrip ['h'] ['s'] mod4Payload (by decide) (by decide) (by decide)
      (by decide)⟩
